import Mathlib

/-!
Shallow embedding of the AMReX geometric-multigrid linear-operator layer:
the 1D node-centered Laplacian kernels (`AMReX_MLNodeLap_1D_K.H`), the
`LinOp` level-management contract (`AMReX_LinOp.H`), and the RNG service
(`AMReX_Random.H`).  C++ `Real` (double) is embedded as `ℚ`; `Array4<T>`
(a 3-index field view) is embedded as `ℤ → ℤ → ℤ → T`; mutable
reference parameters become explicit return values.  `AMREX_SPACEDIM = 1`
for the 1D kernel header, so `GpuArray<Real,AMREX_SPACEDIM>` is a single
`ℚ`, `GpuArray<LinOpBCType,1>` a single integer code, and
`GpuArray<bool,1>` a single `Bool`.
-/

set_option linter.unusedVariables false

namespace AmrexSpec

/-- `Array4<Real>`: a 3-index view of a real field. -/
abbrev Array4R := ℤ → ℤ → ℤ → ℚ

/-- `Array4<int>`: a 3-index view of an integer field. -/
abbrev Array4I := ℤ → ℤ → ℤ → ℤ

/-- `amrex::Box` in 1D: the node/cell index bounds (`smallEnd`, `bigEnd`). -/
structure NBox where
  lo : ℤ
  hi : ℤ
deriving DecidableEq

/-! ### The 1D node-centered Laplacian kernels, `AMReX_MLNodeLap_1D_K.H`.

Every kernel body in that header is literally empty (`{}`); `mlndlap_rhcc`
is `{ return 0._rt; }`.  The embedding returns each kernel's mutable
output argument unchanged, which is exactly what an empty body does. -/

def mlndlap_set_nodal_mask (i j k : ℤ) (nmsk : Array4I) (cmsk : Array4I) : Array4I :=
  nmsk

def mlndlap_set_dirichlet_mask (bx : NBox) (dmsk : Array4I) (omsk : Array4I)
    (dom : NBox) (bclo bchi : ℤ) : Array4I :=
  dmsk

def mlndlap_set_dot_mask (bx : NBox) (dmsk : Array4R) (omsk : Array4I)
    (dom : NBox) (bclo bchi : ℤ) : Array4R :=
  dmsk

def mlndlap_zero_fine (i j k : ℤ) (phi : Array4R) (msk : Array4I) (fine_flag : ℤ) : Array4R :=
  phi

def mlndlap_avgdown_coeff_x (i j k : ℤ) (crse : Array4R) (fine : Array4R) : Array4R :=
  crse

def mlndlap_bc_doit {T : Type} (vbx : NBox) (a : ℤ → ℤ → ℤ → T) (domain : NBox)
    (bflo bfhi : Bool) : ℤ → ℤ → ℤ → T :=
  a

def mlndlap_adotx_ha (i j k : ℤ) (y : Array4R) (x : Array4R) (sx : Array4R)
    (msk : Array4I) (dxinv : ℚ) : Array4R :=
  y

def mlndlap_adotx_aa (i j k : ℤ) (y : Array4R) (x : Array4R) (sig : Array4R)
    (msk : Array4I) (dxinv : ℚ) : Array4R :=
  y

def mlndlap_normalize_ha (bx : NBox) (x : Array4R) (sx : Array4R)
    (msk : Array4I) (dxinv : ℚ) : Array4R :=
  x

def mlndlap_normalize_aa (bx : NBox) (x : Array4R) (sig : Array4R)
    (msk : Array4I) (dxinv : ℚ) : Array4R :=
  x

def mlndlap_jacobi_ha (bx : NBox) (sol : Array4R) (Ax : Array4R) (rhs : Array4R)
    (sx : Array4R) (msk : Array4I) (dxinv : ℚ) : Array4R :=
  sol

def mlndlap_jacobi_aa (bx : NBox) (sol : Array4R) (Ax : Array4R) (rhs : Array4R)
    (sig : Array4R) (msk : Array4I) (dxinv : ℚ) : Array4R :=
  sol

def mlndlap_gauss_seidel_ha (bx : NBox) (sol : Array4R) (rhs : Array4R)
    (sx : Array4R) (msk : Array4I) (dxinv : ℚ) : Array4R :=
  sol

def mlndlap_gauss_seidel_aa (bx : NBox) (sol : Array4R) (rhs : Array4R)
    (sig : Array4R) (msk : Array4I) (dxinv : ℚ) : Array4R :=
  sol

def mlndlap_restriction (i j k : ℤ) (crse : Array4R) (fine : Array4R)
    (msk : Array4I) : Array4R :=
  crse

def mlndlap_interpadd_aa (i j k : ℤ) (fine : Array4R) (crse : Array4R)
    (sig : Array4R) (msk : Array4I) : Array4R :=
  fine

def mlndlap_interpadd_ha (i j k : ℤ) (fine : Array4R) (crse : Array4R)
    (sigx : Array4R) (msk : Array4I) : Array4R :=
  fine

def mlndlap_divu (i j k : ℤ) (rhs : Array4R) (vel : Array4R) (msk : Array4I)
    (dxinv : ℚ) : Array4R :=
  rhs

def mlndlap_rhcc (i j k : ℤ) (rhcc : Array4R) (msk : Array4I) : ℚ :=
  0

def mlndlap_mknewu (i j k : ℤ) (u : Array4R) (p : Array4R) (sig : Array4R)
    (dxinv : ℚ) : Array4R :=
  u

def mlndlap_divu_compute_fine_contrib (i j k : ℤ) (fvbx : NBox) (frh : Array4R)
    (vel : Array4R) (dxinv : ℚ) : Array4R :=
  frh

def mlndlap_divu_add_fine_contrib (i j k : ℤ) (fvbx : NBox) (rhs : Array4R)
    (frh : Array4R) (msk : Array4I) : Array4R :=
  rhs

def mlndlap_rhcc_fine_contrib (i j k : ℤ) (fvbx : NBox) (rhs : Array4R)
    (cc : Array4R) (msk : Array4I) : Array4R :=
  rhs

def mlndlap_divu_cf_contrib (i j k : ℤ) (rhs : Array4R) (vel : Array4R)
    (fc : Array4R) (rhcc : Array4R) (dmsk : Array4I) (ndmsk : Array4I)
    (ccmsk : Array4I) (dxinv : ℚ) (nddom : NBox) (lobc hibc : ℤ)
    (neumann_doubling : Bool) : Array4R :=
  rhs

def mlndlap_crse_resid (i j k : ℤ) (resid : Array4R) (rhs : Array4R)
    (msk : Array4I) (nddom : NBox) (bclo bchi : ℤ)
    (neumann_doubling : Bool) : Array4R :=
  resid

def mlndlap_res_fine_Ax (i j k : ℤ) (fvbx : NBox) (Ax : Array4R) (x : Array4R)
    (sig : Array4R) (dxinv : ℚ) : Array4R :=
  Ax

def mlndlap_res_fine_contrib (i j k : ℤ) (f : Array4R) (Ax : Array4R)
    (msk : Array4I) : Array4R :=
  f

def mlndlap_res_cf_contrib (i j k : ℤ) (res : Array4R) (phi : Array4R)
    (rhs : Array4R) (sig : Array4R) (dmsk : Array4I) (ndmsk : Array4I)
    (ccmsk : Array4I) (fc : Array4R) (dxinv : ℚ) (nddom : NBox)
    (lobc hibc : ℤ) (neumann_doubling : Bool) : Array4R :=
  res

def mlndlap_set_stencil (bx : NBox) (sten : Array4R) (sig : Array4R)
    (dxinv : ℚ) : Array4R :=
  sten

def mlndlap_set_stencil_s0 (i j k : ℤ) (sten : Array4R) : Array4R :=
  sten

def mlndlap_stencil_rap (i j k : ℤ) (csten : Array4R) (fsten : Array4R) : Array4R :=
  csten

def mlndlap_adotx_sten (i j k : ℤ) (y : Array4R) (x : Array4R) (sten : Array4R)
    (msk : Array4I) : Array4R :=
  y

def mlndlap_gauss_seidel_sten (bx : NBox) (sol : Array4R) (rhs : Array4R)
    (sten : Array4R) (msk : Array4I) : Array4R :=
  sol

def mlndlap_interpadd_rap (i j k : ℤ) (fine : Array4R) (crse : Array4R)
    (sten : Array4R) (msk : Array4I) : Array4R :=
  fine

def mlndlap_restriction_rap (i j k : ℤ) (crse : Array4R) (fine : Array4R)
    (sten : Array4R) (msk : Array4I) : Array4R :=
  crse

end AmrexSpec

namespace AmrexSpec

/-! ### The `LinOp` level hierarchy, `AMReX_LinOp.H`.

The header declares the per-level containers (member data `h`, `gbox`,
`undrrelxr`, `maskvals`, `geomarray`) and gives inline bodies for
`numLevels` (`return h.size();`) and `boxArray`
(`BL_ASSERT(level < numLevels()); return gbox[level];`).  The bodies of
`prepareForLevel` and `clearToLevel` live in the implementation file,
which is not part of the excerpted sources, so those two operations are
modelled from the spec.  Indices are 1D here (`AMREX_SPACEDIM = 1`):
a box is an interval of cells, a `BoxArray` a list of such intervals. -/

/-- A 1D index-space box: `(smallEnd, bigEnd)`. -/
abbrev IBox := ℤ × ℤ

/-- `BoxArray`: the ordered list of grid boxes of one level. -/
abbrev GridSet := List IBox

/-- `Geometry` (1D): the physical domain box and its periodicity flag. -/
structure Geom1 where
  dom : IBox
  periodic : Bool
deriving DecidableEq

instance : Inhabited Geom1 := ⟨⟨(0, 0), false⟩⟩

/-- Coarsen a box by the multigrid factor 2 (floor division of both ends,
as `amrex::coarsen` does). -/
def coarsenBox (b : IBox) : IBox :=
  (Int.fdiv b.1 2, Int.fdiv b.2 2)

/-- Coarsen every grid of a level by 2. -/
def coarsenGrids (g : GridSet) : GridSet :=
  g.map coarsenBox

/-- Coarsen the geometry (domain box) by 2. -/
def coarsenGeom (g : Geom1) : Geom1 :=
  ⟨coarsenBox g.dom, g.periodic⟩

/-- Modelled from the spec: the boundary scratch registers (`undrrelxr`)
of one level are per-grid low/high-face scratch storage, freshly zeroed
when the level is built. -/
def mkBndryRegister (g : GridSet) : List (ℚ × ℚ) :=
  g.map fun _ => (0, 0)

/-- Modelled from the spec (§4.2): classify one would-be ghost cell as
covered by a same-level grid (`1`), outside the non-periodic physical
domain (`2`), or not covered (`0`); periodic axes never produce
outside-domain. -/
def classifyGhost (geom : Geom1) (grids : GridSet) (c : ℤ) : ℤ :=
  if grids.any fun b => decide (b.1 ≤ c) && decide (c ≤ b.2) then 1
  else if !geom.periodic && (decide (c < geom.dom.1) || decide (geom.dom.2 < c)) then 2
  else 0

/-- Modelled from the spec: the masks (`maskvals`) of one level hold, for
each grid, the classification of its low-face and high-face ghost cell. -/
def mkMasks (geom : Geom1) (g : GridSet) : List (ℤ × ℤ) :=
  g.map fun b => (classifyGhost geom g (b.1 - 1), classifyGhost geom g (b.2 + 1))

/-- The per-level state owned by a `LinOp`: the five per-level containers
declared in `AMReX_LinOp.H` (the level-0-only `lmaskvals` specialization
is deliberately omitted: per the spec it is lazily built and not part of
the lock-step level hierarchy). -/
structure LinOpState where
  h : List ℚ
  gbox : List GridSet
  undrrelxr : List (List (ℚ × ℚ))
  maskvals : List (List (ℤ × ℤ))
  geomarray : List Geom1
deriving DecidableEq

/-- `LinOp::numLevels`: `return h.size();`. -/
def numLevels (s : LinOpState) : ℕ :=
  s.h.length

/-- Modelled from the spec (§3 lifecycle): construction takes level-0 grid,
geometry and spacing as given; every per-level container starts with
exactly the level-0 entry. -/
def mkLinOp (grids : GridSet) (geom : Geom1) (h0 : ℚ) : LinOpState :=
  { h := [h0]
    gbox := [grids]
    undrrelxr := [mkBndryRegister grids]
    maskvals := [mkMasks geom grids]
    geomarray := [geom] }

/-- Modelled from the spec (§4.1 `prepareForLevel`): append one coarser
level, built by coarsening the finest existing coarse level's grid set by
2 and deriving spacing (doubled), geometry, boundary registers and masks
from it; every container gains exactly one entry. -/
def addLevel (s : LinOpState) : LinOpState :=
  let cg := coarsenGrids ((s.gbox.getLast?).getD [])
  let cgeom := coarsenGeom ((s.geomarray.getLast?).getD default)
  { h := s.h ++ [2 * (s.h.getLast?).getD 0]
    gbox := s.gbox ++ [cg]
    undrrelxr := s.undrrelxr ++ [mkBndryRegister cg]
    maskvals := s.maskvals ++ [mkMasks cgeom cg]
    geomarray := s.geomarray ++ [cgeom] }

/-- Build levels one at a time, in order, until at least `k` levels
exist. -/
def ensureLevels : ℕ → LinOpState → LinOpState
  | 0, s => s
  | k + 1, s =>
      let t := ensureLevels k s
      if numLevels t ≤ k then addLevel t else t

/-- Modelled from the spec: `LinOp::prepareForLevel(level)` — the body is
not under the excerpted sources — builds level `level` and any missing
intermediate levels by successive coarsening, and changes nothing if the
level already exists (idempotence per §4.1). -/
def prepareForLevel (level : ℕ) (s : LinOpState) : LinOpState :=
  ensureLevels (level + 1) s

/-- Modelled from the spec: `LinOp::clearToLevel(level)` — the body is not
under the excerpted sources — discards all per-level state strictly above
`level` (§4.1), truncating every per-level container to `level + 1`
entries. -/
def clearToLevel (level : ℕ) (s : LinOpState) : LinOpState :=
  { h := s.h.take (level + 1)
    gbox := s.gbox.take (level + 1)
    undrrelxr := s.undrrelxr.take (level + 1)
    maskvals := s.maskvals.take (level + 1)
    geomarray := s.geomarray.take (level + 1) }

/-- `LinOp::boxArray(level)`:
`BL_ASSERT(level < numLevels()); return gbox[level];` — `none` models the
fatal assertion failure. -/
def boxArray (s : LinOpState) (level : ℕ) : Option GridSet :=
  if level < numLevels s then some ((s.gbox.get? level).getD []) else none

/-- The lock-step invariant: every per-level container has exactly
`numLevels()` entries. -/
def lockStep (s : LinOpState) : Prop :=
  s.gbox.length = numLevels s ∧ s.undrrelxr.length = numLevels s
    ∧ s.maskvals.length = numLevels s ∧ s.geomarray.length = numLevels s

/-- One structural operation on the level hierarchy. -/
inductive LevelOp where
  | prepareLvl : ℕ → LevelOp
  | clearLvl : ℕ → LevelOp

/-- Run one structural operation. -/
def applyLevelOp : LevelOp → LinOpState → LinOpState
  | LevelOp.prepareLvl k, s => prepareForLevel k s
  | LevelOp.clearLvl k, s => clearToLevel k s

/-- Run a sequence of structural operations. -/
def runLevelOps : List LevelOp → LinOpState → LinOpState
  | [], s => s
  | op :: rest, s => runLevelOps rest (applyLevelOp op s)

/-- A concrete two-level operator used by the witnesses. -/
def linopW : LinOpState :=
  prepareForLevel 1 (mkLinOp [((0 : ℤ), (7 : ℤ))] ⟨(0, 7), false⟩ 1)


/-! ### `LinOp::apply`, modelled from the spec.

`AMReX_LinOp.H` declares `apply` but its body is in the implementation
file, which is not among the excerpted sources.  Per §4.1 of the spec,
`apply` first fills ghost cells of `in` according to `bc_mode` and then
computes `out = L(in)` over the valid region; the ghost fill follows the
BC-application bridge contract of §4.4 (`amrex_mllinop_apply_bc`, whose
declaration is under the sources), in which an `inhomog` flag gates the
boundary-value term of the polynomial interpolant.  The model is the 1D
cell-centered discretization: valid cells `0 .. n-1`, one ghost cell on
each side, ghost values synthesized as
`inhomog * (c0 * bcval) + c1 * u(first) + c2 * u(second)`, and the
operator `alpha*a*u - beta*div(b*grad(u))` evaluated with the
ghost-extended field. -/

/-- `LinOp::BC_Mode` from `AMReX_LinOp.H`. -/
inductive BC_Mode where
  | Homogeneous_BC : BC_Mode
  | Inhomogeneous_BC : BC_Mode
deriving DecidableEq

/-- The `inhomog` flag of the BC-application bridge: `0` in homogeneous
mode, `1` in inhomogeneous mode. -/
def inhomogFlag : BC_Mode → ℚ
  | BC_Mode.Homogeneous_BC => 0
  | BC_Mode.Inhomogeneous_BC => 1

/-- Modelled from the spec (§4.2/§4.4): one ghost value synthesized by the
polynomial interpolant — the boundary-value term `c0 * bcval` is gated by
the `inhomog` flag, the rest is a linear combination of the two nearest
interior values. -/
def ghostVal (mode : BC_Mode) (c0 c1 c2 bcval u0 u1 : ℚ) : ℚ :=
  inhomogFlag mode * (c0 * bcval) + c1 * u0 + c2 * u1

/-- Modelled from the spec: one concrete cell-centered operator — scalar
multipliers `alpha`, `beta`, cell coefficients `aCoef`, face coefficients
`bCoef`, level-0 spacing `h0` (level `l` spacing is `h0 * 2^l`), ghost
interpolation coefficients and boundary values for the low and high
domain faces. -/
structure SpecCellOp where
  alpha : ℚ
  beta : ℚ
  aCoef : ℤ → ℚ
  bCoef : ℤ → ℚ
  h0 : ℚ
  cLo0 : ℚ
  cLo1 : ℚ
  cLo2 : ℚ
  cHi0 : ℚ
  cHi1 : ℚ
  cHi2 : ℚ
  bcvalLo : ℚ
  bcvalHi : ℚ

/-- Modelled from the spec: `LinOp::applyBC` — fill the ghost cells of a
field with `n` valid cells `0 .. n-1` according to `bc_mode`, leaving
valid cells untouched. -/
def applyBC (op : SpecCellOp) (mode : BC_Mode) (n : ℤ) (u : ℤ → ℚ) : ℤ → ℚ :=
  fun i =>
    if i < 0 then ghostVal mode op.cLo0 op.cLo1 op.cLo2 op.bcvalLo (u 0) (u 1)
    else if n ≤ i then ghostVal mode op.cHi0 op.cHi1 op.cHi2 op.bcvalHi (u (n - 1)) (u (n - 2))
    else u i

/-- Modelled from the spec: `LinOp::apply` — ghost fill per `bc_mode`,
then `out = alpha*a*u - beta/h^2 * (b_{i+1}(u_{i+1}-u_i) - b_i(u_i-u_{i-1}))`
over the valid region, with level-`level` spacing. -/
def LinOp_apply (op : SpecCellOp) (level : ℕ) (mode : BC_Mode) (n : ℤ)
    (u : ℤ → ℚ) : ℤ → ℚ :=
  let hl := op.h0 * 2 ^ level
  let v := applyBC op mode n u
  fun i =>
    op.alpha * op.aCoef i * v i
      - op.beta / (hl * hl)
        * (op.bCoef (i + 1) * (v (i + 1) - v i) - op.bCoef i * (v i - v (i - 1)))

/-! ### The RNG service, `AMReX_Random.H`.

The header declares `Random`, `SaveRandomState`, `RestoreRandomState`,
`UniqueRandomSubset` and friends; their bodies are in the implementation
file, which is not among the excerpted sources, so they are modelled from
the spec (§6 RNG collaborator, §7 contract violations, §8 RNG-checkpoint
scenario). -/

/-- Modelled from the spec: the generator state — one deterministic
engine state per thread (the mt19937 engines abstracted as naturals). -/
structure RngState where
  engines : List ℕ
deriving DecidableEq

/-- Modelled from the spec: one deterministic engine transition (a
64-bit linear congruential step standing in for the mt19937 update). -/
def engineNext (s : ℕ) : ℕ :=
  (6364136223846793005 * s + 1442695040888963407) % 2 ^ 64

/-- Modelled from the spec: `Random()` — draw one uniform value in
`[0,1)` from the calling thread's engine and advance that engine. -/
def RandomDraw (g : RngState) : ℚ × RngState :=
  match g.engines with
  | [] => (0, g)
  | e :: rest => ((engineNext e : ℚ) / 2 ^ 64, ⟨engineNext e :: rest⟩)

/-- The sequence of `n` successive `Random()` values from a state. -/
def randomSeq : ℕ → RngState → List ℚ
  | 0, _ => []
  | n + 1, g => (RandomDraw g).1 :: randomSeq n (RandomDraw g).2

/-- Modelled from the spec: `SaveRandomState` — write the thread count
followed by every engine state to the checkpoint stream. -/
def SaveRandomState (g : RngState) : List ℕ :=
  g.engines.length :: g.engines

/-- Modelled from the spec: `RestoreRandomState` — read the thread count
and the engine states back; when the saved thread count matches
`nthreads_old` the saved engines are restored verbatim, otherwise the
engines are reseeded from the step count (`none` models a corrupt
stream). -/
def RestoreRandomState (stream : List ℕ) (nthreads_old nstep_old : ℕ) :
    Option RngState :=
  match stream with
  | [] => none
  | nt :: rest =>
      if nt = nthreads_old then some ⟨rest.take nt⟩
      else some ⟨(List.range nthreads_old).map fun t => t + nstep_old⟩

/-- Modelled from the spec: `Random_int(n)` — one pseudorandom integer
uniformly distributed on `[0, n-1]`, taken here from an abstract draw. -/
def Random_int (n draw : ℕ) : ℕ :=
  draw % n

/-- Result of `UniqueRandomSubset`: the fatal assertion, exhaustion of the
modelled draw stream, or the produced subset. -/
inductive URSResult where
  | abort : URSResult
  | outOfDraws : URSResult
  | ok : List ℕ → URSResult
deriving DecidableEq

/-- Modelled from the spec: the rejection-sampling loop of
`UniqueRandomSubset` — draw `Random_int(poolSize)`, keep values not seen
before (in the order found) until `setSize` values are collected. -/
def ursLoop (poolSize setSize : ℕ) : List ℕ → List ℕ → URSResult
  | [], acc =>
      if setSize ≤ acc.length then URSResult.ok acc.reverse else URSResult.outOfDraws
  | d :: rest, acc =>
      if setSize ≤ acc.length then URSResult.ok acc.reverse
      else
        let r := Random_int poolSize d
        if r ∈ acc then ursLoop poolSize setSize rest acc
        else ursLoop poolSize setSize rest (r :: acc)

/-- Modelled from the spec: `UniqueRandomSubset(uSet, setSize, poolSize)`
— `setSize > poolSize` is a fatal assertion (`abort`); otherwise the
result is a `setSize`-element subset of `[0, poolSize - 1]` collected
from the draw stream in the order found. -/
def UniqueRandomSubset (draws : List ℕ) (setSize poolSize : ℕ) : URSResult :=
  if poolSize < setSize then URSResult.abort
  else ursLoop poolSize setSize draws []

theorem numLevels_addLevel (s : LinOpState) :
    numLevels (addLevel s) = numLevels s + 1 := by
  simp [numLevels, addLevel]

theorem le_numLevels_ensureLevels (k : ℕ) (s : LinOpState) :
    k ≤ numLevels (ensureLevels k s) := by
  induction k with
  | zero => exact Nat.zero_le _
  | succ n ih =>
      simp only [ensureLevels]
      split
      · rw [numLevels_addLevel]
        omega
      · omega

theorem ensureLevels_eq_of_le (k : ℕ) (s : LinOpState) (hk : k ≤ numLevels s) :
    ensureLevels k s = s := by
  induction k with
  | zero => rfl
  | succ n ih =>
      have hn : ensureLevels n s = s := ih (Nat.le_of_succ_le hk)
      simp only [ensureLevels, hn]
      split
      · omega
      · rfl

theorem lockStep_mkLinOp (grids : GridSet) (geom : Geom1) (h0 : ℚ) :
    lockStep (mkLinOp grids geom h0) := by
  simp [lockStep, mkLinOp, numLevels]

theorem lockStep_addLevel {s : LinOpState} (hs : lockStep s) :
    lockStep (addLevel s) := by
  obtain ⟨h1, h2, h3, h4⟩ := hs
  simp only [lockStep, numLevels, addLevel, List.length_append, List.length_cons,
    List.length_nil] at *
  omega

theorem lockStep_ensureLevels {s : LinOpState} (k : ℕ) (hs : lockStep s) :
    lockStep (ensureLevels k s) := by
  induction k with
  | zero => exact hs
  | succ n ih =>
      simp only [ensureLevels]
      split
      · exact lockStep_addLevel ih
      · exact ih

theorem lockStep_clearToLevel {s : LinOpState} (k : ℕ) (hs : lockStep s) :
    lockStep (clearToLevel k s) := by
  obtain ⟨h1, h2, h3, h4⟩ := hs
  simp only [lockStep, numLevels, clearToLevel, List.length_take] at *
  omega

theorem lockStep_runLevelOps {s : LinOpState} (ops : List LevelOp) (hs : lockStep s) :
    lockStep (runLevelOps ops s) := by
  induction ops generalizing s with
  | nil => exact hs
  | cons op rest ih =>
      cases op with
      | prepareLvl k => exact ih (lockStep_ensureLevels (k + 1) hs)
      | clearLvl k => exact ih (lockStep_clearToLevel k hs)

/-- C4: for a prepared operator and a level `k < numLevels()`,
`clearToLevel(k)` leaves `numLevels()` equal to `k + 1`, keeps every
per-level container entry at level `k` and below (level 0 included)
unchanged, and discards every entry strictly above `k` in all five
containers. -/
theorem clearToLevel_frame (s : LinOpState) (k : ℕ) (hk : k < numLevels s) :
    numLevels (clearToLevel k s) = k + 1
    ∧ (∀ j, j ≤ k →
        (clearToLevel k s).h.get? j = s.h.get? j
        ∧ (clearToLevel k s).gbox.get? j = s.gbox.get? j
        ∧ (clearToLevel k s).undrrelxr.get? j = s.undrrelxr.get? j
        ∧ (clearToLevel k s).maskvals.get? j = s.maskvals.get? j
        ∧ (clearToLevel k s).geomarray.get? j = s.geomarray.get? j)
    ∧ (∀ j, k < j →
        (clearToLevel k s).h.get? j = none
        ∧ (clearToLevel k s).gbox.get? j = none
        ∧ (clearToLevel k s).undrrelxr.get? j = none
        ∧ (clearToLevel k s).maskvals.get? j = none
        ∧ (clearToLevel k s).geomarray.get? j = none) := by
  refine ⟨?_, ?_, ?_⟩
  · simp only [numLevels, clearToLevel, List.length_take]
    simp only [numLevels] at hk
    omega
  · intro j hj
    have hjk : j < k + 1 := Nat.lt_succ_of_le hj
    exact ⟨List.get?_take hjk, List.get?_take hjk, List.get?_take hjk,
      List.get?_take hjk, List.get?_take hjk⟩
  · intro j hj
    have hb : ∀ {α : Type} (l : List α), (l.take (k + 1)).length ≤ j := by
      intro α l
      have := List.length_take (k + 1) l
      omega
    exact ⟨List.get?_eq_none.mpr (hb _), List.get?_eq_none.mpr (hb _),
      List.get?_eq_none.mpr (hb _), List.get?_eq_none.mpr (hb _),
      List.get?_eq_none.mpr (hb _)⟩

/-- Witness for `clearToLevel_frame` on a concrete two-level operator. -/
theorem clearToLevel_frame_witness :
    numLevels (clearToLevel 0 linopW) = 0 + 1
    ∧ (∀ j, j ≤ 0 →
        (clearToLevel 0 linopW).h.get? j = linopW.h.get? j
        ∧ (clearToLevel 0 linopW).gbox.get? j = linopW.gbox.get? j
        ∧ (clearToLevel 0 linopW).undrrelxr.get? j = linopW.undrrelxr.get? j
        ∧ (clearToLevel 0 linopW).maskvals.get? j = linopW.maskvals.get? j
        ∧ (clearToLevel 0 linopW).geomarray.get? j = linopW.geomarray.get? j)
    ∧ (∀ j, 0 < j →
        (clearToLevel 0 linopW).h.get? j = none
        ∧ (clearToLevel 0 linopW).gbox.get? j = none
        ∧ (clearToLevel 0 linopW).undrrelxr.get? j = none
        ∧ (clearToLevel 0 linopW).maskvals.get? j = none
        ∧ (clearToLevel 0 linopW).geomarray.get? j = none) :=
  clearToLevel_frame linopW 0 (by decide)

/-- C5: `prepareForLevel` is idempotent — a second call returns exactly
the state the first call produced, duplicating nothing — and a single
call builds level `k` together with any missing intermediate levels, so
`k < numLevels()` holds afterwards. -/
theorem prepareForLevel_idempotent (s : LinOpState) (k : ℕ) :
    prepareForLevel k (prepareForLevel k s) = prepareForLevel k s
    ∧ k < numLevels (prepareForLevel k s) :=
  ⟨ensureLevels_eq_of_le (k + 1) _ (le_numLevels_ensureLevels (k + 1) s),
   le_numLevels_ensureLevels (k + 1) s⟩

/-- C6: after construction and after any sequence of `prepareForLevel`
and `clearToLevel` calls, every per-level container (`h`, `gbox`,
`undrrelxr`, `maskvals`, `geomarray`) has exactly `numLevels()` entries,
and `numLevels()` equals `h.size()` (the latter is the inline body of
`LinOp::numLevels` in the header). -/
theorem containers_in_lockstep (ops : List LevelOp) (grids : GridSet)
    (geom : Geom1) (h0 : ℚ) :
    lockStep (runLevelOps ops (mkLinOp grids geom h0))
    ∧ numLevels (runLevelOps ops (mkLinOp grids geom h0))
        = (runLevelOps ops (mkLinOp grids geom h0)).h.length :=
  ⟨lockStep_runLevelOps ops (lockStep_mkLinOp grids geom h0), rfl⟩

/-- C7: `boxArray(level)` hits the fatal assertion (modelled as `none`)
exactly when `level >= numLevels()`, i.e. when the level has not been
prepared; for a prepared level it returns `gbox[level]` — it is a `const`
accessor computed from the current state alone, never auto-preparing the
level. -/
theorem boxArray_contract (s : LinOpState) (level : ℕ) :
    (boxArray s level = none ↔ numLevels s ≤ level)
    ∧ (level < numLevels s →
        boxArray s level = some ((s.gbox.get? level).getD [])) := by
  constructor
  · constructor
    · intro hnone
      by_contra hlt
      push_neg at hlt
      simp [boxArray, hlt] at hnone
    · intro hle
      simp [boxArray, Nat.not_lt.mpr hle]
  · intro hlt
    simp [boxArray, hlt]

/-- Witness for `boxArray_contract`: on the concrete two-level operator,
level 0 is returned and level 3 trips the assertion. -/
theorem boxArray_contract_witness :
    boxArray linopW 0 = some [((0 : ℤ), (7 : ℤ))] ∧ boxArray linopW 3 = none :=
  ⟨((boxArray_contract linopW 0).2 (by decide)).trans (by rfl),
   (boxArray_contract linopW 3).1.mpr (by decide)⟩

/-- C1: for every operator, every level, and homogeneous boundary mode,
`apply` maps the all-zero input field to the all-zero output field — the
homogeneous ghost fill drops the boundary-value term, so the
discretization carries no additive boundary term. -/
theorem apply_homogeneous_zero (op : SpecCellOp) (level : ℕ) (n : ℤ)
    (u : ℤ → ℚ) (hu : ∀ i, u i = 0) :
    ∀ i, LinOp_apply op level BC_Mode.Homogeneous_BC n u i = 0 := by
  have hv : ∀ i, applyBC op BC_Mode.Homogeneous_BC n u i = 0 := by
    intro i
    simp only [applyBC, ghostVal, inhomogFlag, hu]
    split
    · ring
    · split
      · ring
      · rfl
  intro i
  simp only [LinOp_apply, hv]
  ring

/-- Witness for `apply_homogeneous_zero` on a concrete operator, level,
grid size and cell. -/
theorem apply_homogeneous_zero_witness :
    LinOp_apply ⟨1, 1, fun _ => 2, fun _ => 3, 1, 1, 2, -1, 1, 2, -1, 5, 7⟩ 2
      BC_Mode.Homogeneous_BC 8 (fun _ => 0) 3 = 0 :=
  apply_homogeneous_zero ⟨1, 1, fun _ => 2, fun _ => 3, 1, 1, 2, -1, 1, 2, -1, 5, 7⟩
    2 8 (fun _ => 0) (fun _ => rfl) 3

/-- C2: the three matrix-free apply strategies of the 1D node-centered
Laplacian header — harmonic-average `mlndlap_adotx_ha`, arithmetic-average
`mlndlap_adotx_aa`, and precomputed-stencil `mlndlap_adotx_sten` with the
stencil produced by `mlndlap_set_stencil` from the same coefficient field
`sig` and the same spacing `dxinv` — produce equal output fields on every
input.  (In the 1D header all three kernels have empty bodies, so each
returns `y` unchanged and the agreement is exact.) -/
theorem adotx_strategies_agree :
    ∀ (i j k : ℤ) (y x sx sig : Array4R) (msk : Array4I) (dxinv : ℚ)
      (bx : NBox) (sten0 : Array4R),
      mlndlap_adotx_ha i j k y x sx msk dxinv
          = mlndlap_adotx_aa i j k y x sig msk dxinv
        ∧ mlndlap_adotx_aa i j k y x sig msk dxinv
          = mlndlap_adotx_sten i j k y x (mlndlap_set_stencil bx sten0 sig dxinv) msk := by
  intros
  exact ⟨rfl, rfl⟩

/-- C3: restriction and the two interpolation-add kernels of the 1D header
give a masked-out node (encoded as a nonzero mask entry, i.e.
covered-by-finer or outside-domain) no correction — its value is unchanged
by the call — and masked-out fine nodes carry zero weight: changing the
source field only at masked-out nodes does not change the restriction
output at all.  (All three kernels are empty in 1D, so no node is ever
modified and no source node carries weight.) -/
theorem masked_nodes_unchanged
    (i j k : ℤ) (crse fine sig sigx : Array4R) (msk : Array4I)
    (hm : msk i j k ≠ 0) :
    (mlndlap_restriction i j k crse fine msk) i j k = crse i j k
    ∧ (mlndlap_interpadd_aa i j k fine crse sig msk) i j k = fine i j k
    ∧ (mlndlap_interpadd_ha i j k fine crse sigx msk) i j k = fine i j k
    ∧ ∀ fine₂ : Array4R, (∀ p q r, msk p q r = 0 → fine₂ p q r = fine p q r) →
        mlndlap_restriction i j k crse fine₂ msk
          = mlndlap_restriction i j k crse fine msk := by
  exact ⟨rfl, rfl, rfl, fun _ _ => rfl⟩

/-- Witness for `masked_nodes_unchanged` at a concrete masked node. -/
theorem masked_nodes_unchanged_witness :
    (mlndlap_restriction 0 0 0 (fun _ _ _ => (5 : ℚ)) (fun _ _ _ => 9)
        (fun _ _ _ => 1)) 0 0 0 = 5 :=
  (masked_nodes_unchanged 0 0 0 (fun _ _ _ => (5 : ℚ)) (fun _ _ _ => 9)
      (fun _ _ _ => 0) (fun _ _ _ => 0) (fun _ _ _ => 1) (by decide)).1

/-- C8: every kernel declared in the 1D node-centered-Laplacian header has
an empty body — it returns every output array argument completely
unchanged on every input — and `mlndlap_rhcc` returns `0` on every
input. -/
theorem all_1d_kernels_are_stubs :
    (∀ (i j k : ℤ) (nmsk cmsk : Array4I),
        mlndlap_set_nodal_mask i j k nmsk cmsk = nmsk)
    ∧ (∀ (bx : NBox) (dmsk omsk : Array4I) (dom : NBox) (bclo bchi : ℤ),
        mlndlap_set_dirichlet_mask bx dmsk omsk dom bclo bchi = dmsk)
    ∧ (∀ (bx : NBox) (dmsk : Array4R) (omsk : Array4I) (dom : NBox) (bclo bchi : ℤ),
        mlndlap_set_dot_mask bx dmsk omsk dom bclo bchi = dmsk)
    ∧ (∀ (i j k : ℤ) (phi : Array4R) (msk : Array4I) (fine_flag : ℤ),
        mlndlap_zero_fine i j k phi msk fine_flag = phi)
    ∧ (∀ (i j k : ℤ) (crse fine : Array4R),
        mlndlap_avgdown_coeff_x i j k crse fine = crse)
    ∧ (∀ (T : Type) (vbx : NBox) (a : ℤ → ℤ → ℤ → T) (domain : NBox) (bflo bfhi : Bool),
        mlndlap_bc_doit vbx a domain bflo bfhi = a)
    ∧ (∀ (i j k : ℤ) (y x sx : Array4R) (msk : Array4I) (dxinv : ℚ),
        mlndlap_adotx_ha i j k y x sx msk dxinv = y)
    ∧ (∀ (i j k : ℤ) (y x sig : Array4R) (msk : Array4I) (dxinv : ℚ),
        mlndlap_adotx_aa i j k y x sig msk dxinv = y)
    ∧ (∀ (bx : NBox) (x sx : Array4R) (msk : Array4I) (dxinv : ℚ),
        mlndlap_normalize_ha bx x sx msk dxinv = x)
    ∧ (∀ (bx : NBox) (x sig : Array4R) (msk : Array4I) (dxinv : ℚ),
        mlndlap_normalize_aa bx x sig msk dxinv = x)
    ∧ (∀ (bx : NBox) (sol Ax rhs sx : Array4R) (msk : Array4I) (dxinv : ℚ),
        mlndlap_jacobi_ha bx sol Ax rhs sx msk dxinv = sol)
    ∧ (∀ (bx : NBox) (sol Ax rhs sig : Array4R) (msk : Array4I) (dxinv : ℚ),
        mlndlap_jacobi_aa bx sol Ax rhs sig msk dxinv = sol)
    ∧ (∀ (bx : NBox) (sol rhs sx : Array4R) (msk : Array4I) (dxinv : ℚ),
        mlndlap_gauss_seidel_ha bx sol rhs sx msk dxinv = sol)
    ∧ (∀ (bx : NBox) (sol rhs sig : Array4R) (msk : Array4I) (dxinv : ℚ),
        mlndlap_gauss_seidel_aa bx sol rhs sig msk dxinv = sol)
    ∧ (∀ (i j k : ℤ) (crse fine : Array4R) (msk : Array4I),
        mlndlap_restriction i j k crse fine msk = crse)
    ∧ (∀ (i j k : ℤ) (fine crse sig : Array4R) (msk : Array4I),
        mlndlap_interpadd_aa i j k fine crse sig msk = fine)
    ∧ (∀ (i j k : ℤ) (fine crse sigx : Array4R) (msk : Array4I),
        mlndlap_interpadd_ha i j k fine crse sigx msk = fine)
    ∧ (∀ (i j k : ℤ) (rhs vel : Array4R) (msk : Array4I) (dxinv : ℚ),
        mlndlap_divu i j k rhs vel msk dxinv = rhs)
    ∧ (∀ (i j k : ℤ) (rhcc : Array4R) (msk : Array4I),
        mlndlap_rhcc i j k rhcc msk = 0)
    ∧ (∀ (i j k : ℤ) (u p sig : Array4R) (dxinv : ℚ),
        mlndlap_mknewu i j k u p sig dxinv = u)
    ∧ (∀ (i j k : ℤ) (fvbx : NBox) (frh vel : Array4R) (dxinv : ℚ),
        mlndlap_divu_compute_fine_contrib i j k fvbx frh vel dxinv = frh)
    ∧ (∀ (i j k : ℤ) (fvbx : NBox) (rhs frh : Array4R) (msk : Array4I),
        mlndlap_divu_add_fine_contrib i j k fvbx rhs frh msk = rhs)
    ∧ (∀ (i j k : ℤ) (fvbx : NBox) (rhs cc : Array4R) (msk : Array4I),
        mlndlap_rhcc_fine_contrib i j k fvbx rhs cc msk = rhs)
    ∧ (∀ (i j k : ℤ) (rhs vel fc rhcc : Array4R) (dmsk ndmsk ccmsk : Array4I)
         (dxinv : ℚ) (nddom : NBox) (lobc hibc : ℤ) (nd : Bool),
        mlndlap_divu_cf_contrib i j k rhs vel fc rhcc dmsk ndmsk ccmsk dxinv
          nddom lobc hibc nd = rhs)
    ∧ (∀ (i j k : ℤ) (resid rhs : Array4R) (msk : Array4I) (nddom : NBox)
         (bclo bchi : ℤ) (nd : Bool),
        mlndlap_crse_resid i j k resid rhs msk nddom bclo bchi nd = resid)
    ∧ (∀ (i j k : ℤ) (fvbx : NBox) (Ax x sig : Array4R) (dxinv : ℚ),
        mlndlap_res_fine_Ax i j k fvbx Ax x sig dxinv = Ax)
    ∧ (∀ (i j k : ℤ) (f Ax : Array4R) (msk : Array4I),
        mlndlap_res_fine_contrib i j k f Ax msk = f)
    ∧ (∀ (i j k : ℤ) (res phi rhs sig : Array4R) (dmsk ndmsk ccmsk : Array4I)
         (fc : Array4R) (dxinv : ℚ) (nddom : NBox) (lobc hibc : ℤ) (nd : Bool),
        mlndlap_res_cf_contrib i j k res phi rhs sig dmsk ndmsk ccmsk fc dxinv
          nddom lobc hibc nd = res)
    ∧ (∀ (bx : NBox) (sten sig : Array4R) (dxinv : ℚ),
        mlndlap_set_stencil bx sten sig dxinv = sten)
    ∧ (∀ (i j k : ℤ) (sten : Array4R),
        mlndlap_set_stencil_s0 i j k sten = sten)
    ∧ (∀ (i j k : ℤ) (csten fsten : Array4R),
        mlndlap_stencil_rap i j k csten fsten = csten)
    ∧ (∀ (i j k : ℤ) (y x sten : Array4R) (msk : Array4I),
        mlndlap_adotx_sten i j k y x sten msk = y)
    ∧ (∀ (bx : NBox) (sol rhs sten : Array4R) (msk : Array4I),
        mlndlap_gauss_seidel_sten bx sol rhs sten msk = sol)
    ∧ (∀ (i j k : ℤ) (fine crse sten : Array4R) (msk : Array4I),
        mlndlap_interpadd_rap i j k fine crse sten msk = fine)
    ∧ (∀ (i j k : ℤ) (crse fine sten : Array4R) (msk : Array4I),
        mlndlap_restriction_rap i j k crse fine sten msk = crse) := by
  refine ⟨?_, ?_, ?_, ?_, ?_, ?_, ?_, ?_, ?_, ?_, ?_, ?_, ?_, ?_, ?_, ?_, ?_,
    ?_, ?_, ?_, ?_, ?_, ?_, ?_, ?_, ?_, ?_, ?_, ?_, ?_, ?_, ?_, ?_, ?_, ?_⟩ <;>
    · intros
      rfl

/-- C9: saving the generator state and restoring it with the identical
thread count reproduces exactly the subsequent `Random()` sequence of the
saved state, whatever the step count and however many values are
drawn. -/
theorem rng_checkpoint_roundtrip (g : RngState) (nt nstep n : ℕ)
    (hnt : nt = g.engines.length) :
    (RestoreRandomState (SaveRandomState g) nt nstep).map (randomSeq n)
      = some (randomSeq n g) := by
  subst hnt
  simp [RestoreRandomState, SaveRandomState]

/-- Witness for `rng_checkpoint_roundtrip` at a concrete two-thread
state. -/
theorem rng_checkpoint_roundtrip_witness :
    (RestoreRandomState (SaveRandomState ⟨[42, 7]⟩) 2 5).map (randomSeq 3)
      = some (randomSeq 3 ⟨[42, 7]⟩) :=
  rng_checkpoint_roundtrip ⟨[42, 7]⟩ 2 5 3 rfl

theorem ursLoop_ok_inv (poolSize setSize : ℕ) (draws : List ℕ) :
    ∀ (acc : List ℕ) (l : List ℕ),
      (∀ x ∈ acc, x < poolSize) → acc.Nodup → acc.length ≤ setSize →
      setSize ≤ poolSize →
      ursLoop poolSize setSize draws acc = URSResult.ok l →
      l.length = setSize ∧ l.Nodup ∧ ∀ x ∈ l, x < poolSize := by
  induction draws with
  | nil =>
      intro acc l hmem hnd hlen hsp hok
      simp only [ursLoop] at hok
      split at hok
      · rename_i hge
        cases hok
        refine ⟨by simpa using Nat.le_antisymm hlen hge, by simpa using hnd, ?_⟩
        intro x hx
        exact hmem x (List.mem_reverse.mp hx)
      · cases hok
  | cons d rest ih =>
      intro acc l hmem hnd hlen hsp hok
      simp only [ursLoop] at hok
      split at hok
      · rename_i hge
        cases hok
        refine ⟨by simpa using Nat.le_antisymm hlen hge, by simpa using hnd, ?_⟩
        intro x hx
        exact hmem x (List.mem_reverse.mp hx)
      · rename_i hlt
        by_cases hmemr : Random_int poolSize d ∈ acc
        · rw [if_pos hmemr] at hok
          exact ih acc l hmem hnd hlen hsp hok
        · rw [if_neg hmemr] at hok
          have hpool : 0 < poolSize := by
            push_neg at hlt
            omega
          refine ih (Random_int poolSize d :: acc) l ?_ ?_ ?_ hsp hok
          · intro x hx
            rcases List.mem_cons.mp hx with hx | hx
            · subst hx
              exact Nat.mod_lt _ hpool
            · exact hmem x hx
          · exact List.nodup_cons.mpr ⟨hmemr, hnd⟩
          · simp only [List.length_cons]
            push_neg at hlt
            omega

/-- C10: `UniqueRandomSubset` with `setSize > poolSize` is the fatal
assertion; with `setSize <= poolSize`, whenever it returns a subset, that
subset has exactly `setSize` entries, all distinct and each in
`[0, poolSize - 1]`. -/
theorem uniqueRandomSubset_contract (draws : List ℕ) (setSize poolSize : ℕ) :
    (poolSize < setSize →
      UniqueRandomSubset draws setSize poolSize = URSResult.abort)
    ∧ (∀ l, UniqueRandomSubset draws setSize poolSize = URSResult.ok l →
        l.length = setSize ∧ l.Nodup ∧ ∀ x ∈ l, x < poolSize) := by
  constructor
  · intro hlt
    simp [UniqueRandomSubset, hlt]
  · intro l hok
    simp only [UniqueRandomSubset] at hok
    split at hok
    · cases hok
    · rename_i hge
      push_neg at hge
      exact ursLoop_ok_inv poolSize setSize draws [] l (by simp) List.nodup_nil
        (Nat.zero_le _) hge hok

/-- Witness for `uniqueRandomSubset_contract`: a concrete assertion case
and a concrete successful case. -/
theorem uniqueRandomSubset_contract_witness :
    UniqueRandomSubset [0, 0, 1] 4 3 = URSResult.abort
    ∧ ([3, 1].length = 2 ∧ ([3, 1] : List ℕ).Nodup ∧ ∀ x ∈ ([3, 1] : List ℕ), x < 4) :=
  ⟨(uniqueRandomSubset_contract [0, 0, 1] 4 3).1 (by decide),
   (uniqueRandomSubset_contract [3, 3, 5] 2 4).2 [3, 1] (by decide)⟩

end AmrexSpec
